import Mathlib

/-!
Verification of the schema-comparison core of `db2_compare.py`.

The embedding models the catalog records, the grouping stage
(`_group_by_table`, `_group_by_proc`, `_group_by_trigger`,
`_group_by_function`), the per-kind difference tests
(`_table_definitions_differ`, `_proc_definitions_differ`,
`_trigger_definitions_differ`, `_function_definitions_differ`), the
added/removed key computations of `compare_tables` / `compare_procedures` /
`compare_triggers` / `compare_functions`, the column-level detail of
`_write_table_differences_detail`, and the sequential control flow of
`main`.

Python dictionaries are modelled as association lists with Python's
dict semantics: assigning to an existing key replaces the value in
place (keeping its position), assigning a fresh key appends it.
Python set objects do not keep a specified order (CPython iterates
them in hash order, which string-hash randomization makes
run-dependent); wherever the source iterates a set we model the
iteration as a filter of the underlying dict-key list, which — like
the real order — applies no sorting.  Only `sorted(...)` calls in the
source are modelled as sorting.
-/

namespace Db2Compare

/-- A scalar catalog field value: string, integer or SQL NULL
(`None` in the Python rows). -/
inductive Value where
  | str : String → Value
  | int : Int → Value
  | null : Value
deriving DecidableEq, Repr

/-- Python `str()` / f-string rendering of a field value, as used when
building `f"{schema}.{name}"` keys. -/
def Value.keyStr : Value → String
  | .str s => s
  | .int n => toString n
  | .null => "None"

/-- A catalog row: total lookup from (lower-cased) field name to value.
`_fetch_all` lower-cases every key, and the spec guarantees that every
field named by a descriptor is present, so lookup is total. -/
abbrev Record := String → Value

/-- Placeholder record (never reached on well-formed inputs; used only to
make dictionary access total). -/
def defaultRecord : Record := fun _ => Value.null

/-- Python `d[k] = v` on a dict modelled as an association list: if the
key exists its value is replaced in place, otherwise the pair is
appended. -/
def dictInsert {α β : Type} [DecidableEq α] (d : List (α × β)) (k : α) (v : β) :
    List (α × β) :=
  if d.any (fun p => decide (p.1 = k)) then
    d.map (fun p => if p.1 = k then (k, v) else p)
  else
    d ++ [(k, v)]

/-- Python `d.keys()` in insertion order. -/
def dictKeys {α β : Type} (d : List (α × β)) : List α := d.map (·.1)

/-- Python `d[k]` lookup (first — and for dicts only — binding of `k`). -/
def dictFind {α β : Type} [DecidableEq α] : List (α × β) → α → Option β
  | [], _ => none
  | p :: t, k => if p.1 = k then some p.2 else dictFind t k

/-- `d[k]` where the caller has already checked `k in d`. -/
def recGet (d : List (String × Record)) (k : String) : Record :=
  (dictFind d k).getD defaultRecord

/-- Qualified key of a table row: `f"{t['tabschema']}.{t['tabname']}"`. -/
def tableKey (r : Record) : String :=
  (r "tabschema").keyStr ++ "." ++ (r "tabname").keyStr

/-- `result[key] = []` / `result[key].append(table)` step of
`_group_by_table`. -/
def dictAppend (d : List (String × List Record)) (k : String) (v : Record) :
    List (String × List Record) :=
  if d.any (fun p => decide (p.1 = k)) then
    d.map (fun p => if p.1 = k then (p.1, p.2 ++ [v]) else p)
  else
    d ++ [(k, [v])]

/-- `_group_by_table`: fold the column rows into a dict from
`schema.table` to the list of its column records, in row order. -/
def group_by_table (rows : List Record) : List (String × List Record) :=
  rows.foldl (fun d r => dictAppend d (tableKey r) r) []

/-- Qualified key of a procedure row:
`f"{proc['procschema']}.{proc['procname']}"`. -/
def procKey (r : Record) : String :=
  (r "procschema").keyStr ++ "." ++ (r "procname").keyStr

/-- `_group_by_proc`: `result[key] = proc` for each row in order. -/
def group_by_proc (procs : List Record) : List (String × Record) :=
  procs.foldl (fun d r => dictInsert d (procKey r) r) []

/-- Qualified key of a trigger row:
`f"{trigger['trigschema']}.{trigger['trigname']}"`. -/
def trigKey (r : Record) : String :=
  (r "trigschema").keyStr ++ "." ++ (r "trigname").keyStr

/-- `_group_by_trigger`: `result[key] = trigger` for each row in order. -/
def group_by_trigger (triggers : List Record) : List (String × Record) :=
  triggers.foldl (fun d r => dictInsert d (trigKey r) r) []

/-- Qualified key of a function row:
`f"{func['funcschema']}.{func['funcname']}"`. -/
def funcKey (r : Record) : String :=
  (r "funcschema").keyStr ++ "." ++ (r "funcname").keyStr

/-- `_group_by_function`: `result[key] = func` for each row in order. -/
def group_by_function (funcs : List Record) : List (String × Record) :=
  funcs.foldl (fun d r => dictInsert d (funcKey r) r) []

/-- The column `compare_keys` list of `_table_definitions_differ`. -/
def table_compare_keys : List String :=
  ["colname", "typename", "length", "scale", "nulls",
   "default", "identity", "generated"]

/-- The per-column `differences` list built inside
`_table_definitions_differ`: one `f"{key}: {b} -> {m}"` entry per compare
key whose values differ. -/
def column_differences (b m : Record) : List String :=
  (table_compare_keys.filter (fun k => decide (b k ≠ m k))).map
    (fun k => k ++ ": " ++ (b k).keyStr ++ " -> " ++ (m k).keyStr)

/-- `_table_definitions_differ`: `True` when the column counts differ,
otherwise `True` iff some `zip`-aligned column pair has a non-empty
`differences` list. -/
def table_definitions_differ (baseline_cols modified_cols : List Record) : Bool :=
  if baseline_cols.length ≠ modified_cols.length then
    true
  else
    (baseline_cols.zip modified_cols).any
      (fun p => !(column_differences p.1 p.2).isEmpty)

/-- `_find_modified_tables`: the common keys whose definitions differ.
The source iterates `set(baseline) & set(modified)` (hash order); the
result is consumed only through membership and `sorted`, modelled here
in baseline-key order. -/
def find_modified_tables (baseline modified : List (String × List Record)) :
    List String :=
  (dictKeys baseline).filter
    (fun k => decide (k ∈ dictKeys modified) &&
      table_definitions_differ ((dictFind baseline k).getD [])
        ((dictFind modified k).getD []))

/-- `set(modified.keys()) - set(baseline.keys())`: new keys, as computed
in `compare_tables` / `compare_procedures` / `compare_triggers` /
`compare_functions`. -/
def new_keys {β : Type} (baseline modified : List (String × β)) : List String :=
  (dictKeys modified).filter (fun k => decide (k ∉ dictKeys baseline))

/-- `set(baseline.keys()) - set(modified.keys())`: dropped keys. -/
def dropped_keys {β : Type} (baseline modified : List (String × β)) : List String :=
  (dictKeys baseline).filter (fun k => decide (k ∉ dictKeys modified))

/-- The `compare_keys` list of `_proc_definitions_differ`. -/
def proc_compare_keys : List String :=
  ["language", "deterministic", "nullcall", "routine_text",
   "param_count", "result_sets"]

/-- The `differences` list of `_proc_definitions_differ`: one
`f"{key}: Changed"` entry per compare key whose values differ. -/
def proc_differences (b m : Record) : List String :=
  (proc_compare_keys.filter (fun k => decide (b k ≠ m k))).map
    (fun k => k ++ ": Changed")

/-- `_proc_definitions_differ`: `bool(differences)`. -/
def proc_definitions_differ (b m : Record) : Bool :=
  !(proc_differences b m).isEmpty

/-- `_find_modified_procs` (set iteration modelled in baseline-key
order; consumed only through membership and `sorted`). -/
def find_modified_procs (baseline modified : List (String × Record)) :
    List String :=
  (dictKeys baseline).filter
    (fun k => decide (k ∈ dictKeys modified) &&
      proc_definitions_differ (recGet baseline k) (recGet modified k))

/-- The `compare_keys` list of `_trigger_definitions_differ`. -/
def trigger_compare_keys : List String :=
  ["trigtime", "trigevent", "granularity", "valid", "enabled",
   "trigger_text", "tabschema", "tabname"]

/-- The `differences` list of `_trigger_definitions_differ`. -/
def trigger_differences (b m : Record) : List String :=
  (trigger_compare_keys.filter (fun k => decide (b k ≠ m k))).map
    (fun k => k ++ ": Changed")

/-- `_trigger_definitions_differ`: `bool(differences)`. -/
def trigger_definitions_differ (b m : Record) : Bool :=
  !(trigger_differences b m).isEmpty

/-- `_find_modified_triggers`. -/
def find_modified_triggers (baseline modified : List (String × Record)) :
    List String :=
  (dictKeys baseline).filter
    (fun k => decide (k ∈ dictKeys modified) &&
      trigger_definitions_differ (recGet baseline k) (recGet modified k))

/-- The `compare_keys` list of `_function_definitions_differ`. -/
def function_compare_keys : List String :=
  ["language", "deterministic", "nullcall", "function_text",
   "return_type", "param_count", "function_type"]

/-- The `differences` list of `_function_definitions_differ`. -/
def function_differences (b m : Record) : List String :=
  (function_compare_keys.filter (fun k => decide (b k ≠ m k))).map
    (fun k => k ++ ": Changed")

/-- `_function_definitions_differ`: `bool(differences)`. -/
def function_definitions_differ (b m : Record) : Bool :=
  !(function_differences b m).isEmpty

/-- `_find_modified_functions`. -/
def find_modified_functions (baseline modified : List (String × Record)) :
    List String :=
  (dictKeys baseline).filter
    (fun k => decide (k ∈ dictKeys modified) &&
      function_definitions_differ (recGet baseline k) (recGet modified k))

/-- Python `sorted(...)` on a list of keys (stable ascending sort). -/
def pySorted (l : List String) : List String :=
  List.insertionSort (· ≤ ·) l

/-- Order in which `compare_tables` writes the "New Tables" section:
`for table in sorted(new_tables)`. -/
def rendered_new_tables (baseline modified : List (String × List Record)) :
    List String :=
  pySorted (new_keys baseline modified)

/-- Order of the "Dropped Tables" section. -/
def rendered_dropped_tables (baseline modified : List (String × List Record)) :
    List String :=
  pySorted (dropped_keys baseline modified)

/-- Order of the "Modified Tables" section. -/
def rendered_modified_tables (baseline modified : List (String × List Record)) :
    List String :=
  pySorted (find_modified_tables baseline modified)

/-- Order of the "New Procedures" section of `compare_procedures`. -/
def rendered_new_procs (baseline modified : List (String × Record)) :
    List String :=
  pySorted (new_keys baseline modified)

/-- Order of the "Dropped Procedures" section. -/
def rendered_dropped_procs (baseline modified : List (String × Record)) :
    List String :=
  pySorted (dropped_keys baseline modified)

/-- Order of the "Modified Procedures" section. -/
def rendered_modified_procs (baseline modified : List (String × Record)) :
    List String :=
  pySorted (find_modified_procs baseline modified)

/-- `{col['colname']: col for col in cols}` of
`_write_table_differences_detail`: the name-keyed column dict. -/
def colsDict (cols : List Record) : List (Value × Record) :=
  cols.foldl (fun d c => dictInsert d (c "colname") c) []

/-- Name-keyed column access `cols_dict[col]`. -/
def colGet (cols : List Record) (c : Value) : Record :=
  (dictFind (colsDict cols) c).getD defaultRecord

/-- The field list of the per-column `changes` loop in
`_write_table_differences_detail` (no `colname`: the dict is keyed by it). -/
def detail_compare_keys : List String :=
  ["typename", "length", "scale", "nulls", "default",
   "identity", "generated"]

/-- The `changes` list for one common column:
`f"{key}: {b} -> {m}"` per differing field. -/
def col_changes (bc mc : Record) : List String :=
  (detail_compare_keys.filter (fun k => decide (bc k ≠ mc k))).map
    (fun k => k ++ ": " ++ (bc k).keyStr ++ " -> " ++ (mc k).keyStr)

/-- `added_cols = set(modified_cols_dict) - set(baseline_cols_dict)`,
iterated by the source in CPython set (hash) order — no sorting;
modelled in dict-key (first-insertion) order. -/
def detail_added_cols (baseline_cols modified_cols : List Record) : List Value :=
  (dictKeys (colsDict modified_cols)).filter
    (fun c => decide (c ∉ dictKeys (colsDict baseline_cols)))

/-- `removed_cols = set(baseline_cols_dict) - set(modified_cols_dict)`,
likewise iterated unsorted. -/
def detail_removed_cols (baseline_cols modified_cols : List Record) : List Value :=
  (dictKeys (colsDict baseline_cols)).filter
    (fun c => decide (c ∉ dictKeys (colsDict modified_cols)))

/-- `common_cols = set(baseline_cols_dict) & set(modified_cols_dict)`,
likewise iterated unsorted. -/
def detail_common_cols (baseline_cols modified_cols : List Record) : List Value :=
  (dictKeys (colsDict baseline_cols)).filter
    (fun c => decide (c ∈ dictKeys (colsDict modified_cols)))

/-- The column names of `modified_cols_list`: the common columns whose
`changes` list is non-empty, in the (unsorted) common-column iteration
order. -/
def detail_modified_cols (baseline_cols modified_cols : List Record) : List Value :=
  (detail_common_cols baseline_cols modified_cols).filter
    (fun c => !(col_changes (colGet baseline_cols c) (colGet modified_cols c)).isEmpty)

/-- The `try` block of `main`: `compare_tables()`, `compare_procedures()`,
`compare_triggers()`, `compare_functions()` called in sequence with no
per-kind exception handling; the first raised error propagates (the
`finally` clause only closes the connections), so later kinds never run.
Returns, per kind, whether its report was produced, and the propagated
error if any. -/
def run_comparisons : List (Except String Unit) → List Bool × Option String
  | [] => ([], none)
  | Except.ok _ :: rest =>
      let r := run_comparisons rest
      (true :: r.1, r.2)
  | Except.error e :: rest =>
      (false :: rest.map (fun _ => false), some e)

/-! ### Dictionary lemmas -/

lemma dictFind_map_replace {α β : Type} [DecidableEq α] (d : List (α × β))
    (k k' : α) (v : β) (h : k ≠ k') :
    dictFind (d.map (fun p => if p.1 = k' then (k', v) else p)) k = dictFind d k := by
  induction d with
  | nil => rfl
  | cons p t ih =>
    by_cases hp : p.1 = k'
    · simp only [List.map_cons, if_pos hp, dictFind]
      rw [if_neg (fun hh => h hh.symm), if_neg (fun hh => h (hp ▸ hh).symm), ih]
    · simp only [List.map_cons, if_neg hp, dictFind]
      by_cases hk : p.1 = k
      · rw [if_pos hk, if_pos hk]
      · rw [if_neg hk, if_neg hk, ih]

lemma dictFind_dictInsert {α β : Type} [DecidableEq α] (d : List (α × β))
    (k k' : α) (v : β) :
    dictFind (dictInsert d k' v) k = if k = k' then some v else dictFind d k := by
  induction d with
  | nil =>
    by_cases h : k = k'
    · simp [dictInsert, dictFind, h]
    · simp [dictInsert, dictFind, h, Ne.symm h]
  | cons p t ih =>
    by_cases hany : (p :: t).any (fun q => decide (q.1 = k')) = true
    · rw [dictInsert, if_pos hany, List.map_cons]
      by_cases hp : p.1 = k'
      · rw [if_pos hp]
        by_cases h : k = k'
        · subst h; simp [dictFind]
        · rw [dictFind, if_neg (fun hh => h hh.symm), if_neg h,
            dictFind, if_neg (fun hh => h (hp ▸ hh).symm),
            dictFind_map_replace t k k' v h]
      · rw [if_neg hp]
        have htany : t.any (fun q => decide (q.1 = k')) = true := by
          rcases List.any_eq_true.mp hany with ⟨q, hq, hqk⟩
          rcases List.mem_cons.mp hq with hq | hq
          · exact absurd (of_decide_eq_true (hq ▸ hqk)) hp
          · exact List.any_eq_true.mpr ⟨q, hq, hqk⟩
        by_cases hk : p.1 = k
        · have hkk' : k ≠ k' := fun hh => hp (hk.trans hh)
          rw [dictFind, if_pos hk, if_neg hkk', dictFind, if_pos hk]
        · rw [dictFind, if_neg hk]
          have : dictInsert t k' v =
              t.map (fun p => if p.1 = k' then (k', v) else p) := by
            rw [dictInsert, if_pos htany]
          rw [← this, ih, dictFind, if_neg hk]
    · rw [dictInsert, if_neg hany, List.cons_append]
      have htany : ¬ t.any (fun q => decide (q.1 = k')) = true := by
        intro hh
        rcases List.any_eq_true.mp hh with ⟨q, hq, hqk⟩
        exact hany (List.any_eq_true.mpr ⟨q, List.mem_cons_of_mem _ hq, hqk⟩)
      have hp : ¬ p.1 = k' := by
        intro hh
        exact hany (List.any_eq_true.mpr ⟨p, List.mem_cons_self _ _, decide_eq_true hh⟩)
      by_cases hk : p.1 = k
      · have hkk' : k ≠ k' := fun hh => hp (hk.trans hh)
        rw [dictFind, if_pos hk, if_neg hkk', dictFind, if_pos hk]
      · rw [dictFind, if_neg hk]
        have : dictInsert t k' v = t ++ [(k', v)] := by
          rw [dictInsert, if_neg htany]
        rw [← this, ih, dictFind, if_neg hk]

lemma getLast?_cons_or {α : Type} (a : α) (l : List α) :
    (a :: l).getLast? = Option.or l.getLast? (some a) := by
  cases l <;> simp [List.getLast?]

/-- Lookup after folding records into a dict with `dictInsert`: the last
record (in input order) whose key matches wins; otherwise the initial
dict answers. -/
lemma dictFind_groupFold (key : Record → String) (rs : List Record)
    (d : List (String × Record)) (k : String) :
    dictFind (rs.foldl (fun acc r => dictInsert acc (key r) r) d) k =
      Option.or ((rs.filter (fun r => decide (key r = k))).getLast?) (dictFind d k) := by
  induction rs generalizing d with
  | nil => simp [Option.or]
  | cons r t ih =>
    rw [List.foldl_cons, ih, dictFind_dictInsert]
    by_cases h : key r = k
    · subst h
      have hf : (r :: t).filter (fun x => decide (key x = key r)) =
          r :: t.filter (fun x => decide (key x = key r)) := by
        simp [List.filter_cons]
      rw [hf, getLast?_cons_or, if_pos rfl]
      cases (t.filter fun x => decide (key x = key r)).getLast? <;> simp [Option.or]
    · have hf : (r :: t).filter (fun x => decide (key x = k)) =
          t.filter (fun x => decide (key x = k)) := by
        simp [List.filter_cons, h]
      rw [hf, if_neg (fun hh => h hh.symm)]

/-! ### Characterizations of the per-kind difference tests -/

lemma proc_differences_eq_nil_iff (b m : Record) :
    proc_differences b m = [] ↔ ∀ k ∈ proc_compare_keys, b k = m k := by
  simp [proc_differences, List.filter_eq_nil_iff]

lemma proc_differ_true_iff (b m : Record) :
    proc_definitions_differ b m = true ↔ ∃ k ∈ proc_compare_keys, b k ≠ m k := by
  simp [proc_definitions_differ, List.isEmpty_iff, proc_differences,
    List.filter_eq_nil_iff]

lemma trigger_differ_true_iff (b m : Record) :
    trigger_definitions_differ b m = true ↔ ∃ k ∈ trigger_compare_keys, b k ≠ m k := by
  simp [trigger_definitions_differ, List.isEmpty_iff, trigger_differences,
    List.filter_eq_nil_iff]

lemma function_differ_true_iff (b m : Record) :
    function_definitions_differ b m = true ↔ ∃ k ∈ function_compare_keys, b k ≠ m k := by
  simp [function_definitions_differ, List.isEmpty_iff, function_differences,
    List.filter_eq_nil_iff]

lemma column_differences_eq_nil_iff (b m : Record) :
    column_differences b m = [] ↔ ∀ k ∈ table_compare_keys, b k = m k := by
  simp [column_differences, List.filter_eq_nil_iff]

lemma col_changes_eq_nil_iff (bc mc : Record) :
    col_changes bc mc = [] ↔ ∀ k ∈ detail_compare_keys, bc k = mc k := by
  simp [col_changes, List.filter_eq_nil_iff]

/-! ### Membership in the computed categories -/

lemma mem_new_keys {β : Type} (b m : List (String × β)) (k : String) :
    k ∈ new_keys b m ↔ k ∈ dictKeys m ∧ k ∉ dictKeys b := by
  simp [new_keys, List.mem_filter]

lemma mem_dropped_keys {β : Type} (b m : List (String × β)) (k : String) :
    k ∈ dropped_keys b m ↔ k ∈ dictKeys b ∧ k ∉ dictKeys m := by
  simp [dropped_keys, List.mem_filter]

lemma mem_find_modified_procs (b m : List (String × Record)) (k : String) :
    k ∈ find_modified_procs b m ↔
      k ∈ dictKeys b ∧ k ∈ dictKeys m ∧
        proc_definitions_differ (recGet b k) (recGet m k) = true := by
  simp [find_modified_procs, List.mem_filter, and_assoc]

lemma mem_find_modified_triggers (b m : List (String × Record)) (k : String) :
    k ∈ find_modified_triggers b m ↔
      k ∈ dictKeys b ∧ k ∈ dictKeys m ∧
        trigger_definitions_differ (recGet b k) (recGet m k) = true := by
  simp [find_modified_triggers, List.mem_filter, and_assoc]

lemma mem_find_modified_functions (b m : List (String × Record)) (k : String) :
    k ∈ find_modified_functions b m ↔
      k ∈ dictKeys b ∧ k ∈ dictKeys m ∧
        function_definitions_differ (recGet b k) (recGet m k) = true := by
  simp [find_modified_functions, List.mem_filter, and_assoc]

lemma mem_find_modified_tables (b m : List (String × List Record)) (k : String) :
    k ∈ find_modified_tables b m ↔
      k ∈ dictKeys b ∧ k ∈ dictKeys m ∧
        table_definitions_differ ((dictFind b k).getD []) ((dictFind m k).getD []) = true := by
  simp [find_modified_tables, List.mem_filter, and_assoc]

/-- Index-wise characterization of `any` over a `zip` of record lists. -/
lemma zip_any_iff (b m : List Record) (f : Record × Record → Bool) :
    (b.zip m).any f = true ↔
      ∃ i, i < b.length ∧ i < m.length ∧
        f (b.getD i defaultRecord, m.getD i defaultRecord) = true := by
  induction b generalizing m with
  | nil => simp
  | cons x xs ih =>
    cases m with
    | nil => simp
    | cons y ys =>
      simp only [List.zip_cons_cons, List.any_cons, Bool.or_eq_true, ih]
      constructor
      · rintro (h | ⟨i, h1, h2, h3⟩)
        · exact ⟨0, by simp, by simp, by simpa using h⟩
        · exact ⟨i + 1, by simpa using h1, by simpa using h2, by simpa using h3⟩
      · rintro ⟨i, h1, h2, h3⟩
        cases i with
        | zero => exact Or.inl (by simpa using h3)
        | succ j =>
          exact Or.inr ⟨j, by simpa using h1, by simpa using h2, by simpa using h3⟩

lemma column_differences_nonempty_iff (b m : Record) :
    (!(column_differences b m).isEmpty) = true ↔
      ∃ k ∈ table_compare_keys, b k ≠ m k := by
  simp [column_differences, List.isEmpty_iff, List.filter_eq_nil_iff]

/-! ### Concrete records for closed instances -/

/-- Column "A" of type INTEGER. -/
def tcolA : Record := fun f =>
  if f = "colname" then .str "A"
  else if f = "typename" then .str "INTEGER"
  else .null

/-- Column "B" of type INTEGER. -/
def tcolB : Record := fun f =>
  if f = "colname" then .str "B"
  else if f = "typename" then .str "INTEGER"
  else .null

/-- Column "A" of type BIGINT. -/
def tcolA2 : Record := fun f =>
  if f = "colname" then .str "A"
  else if f = "typename" then .str "BIGINT"
  else .null

/-- Column "B" of type BIGINT. -/
def tcolB2 : Record := fun f =>
  if f = "colname" then .str "B"
  else if f = "typename" then .str "BIGINT"
  else .null

/-- Baseline column list: "B" before "A". -/
def tblBase : List Record := [tcolB, tcolA]

/-- Modified column list with both column types changed. -/
def tblMod : List Record := [tcolB2, tcolA2]

/-- The baseline columns in the opposite order. -/
def tblPerm : List Record := [tcolA, tcolB]

/-- Procedure S.P with language SQL. -/
def procRec1 : Record := fun f =>
  if f = "procschema" then .str "S"
  else if f = "procname" then .str "P"
  else if f = "language" then .str "SQL"
  else .null

/-- Procedure S.P with language JAVA. -/
def procRec2 : Record := fun f =>
  if f = "procschema" then .str "S"
  else if f = "procname" then .str "P"
  else if f = "language" then .str "JAVA"
  else .null

/-- One-procedure baseline grouping. -/
def procGroupBase : List (String × Record) := [("S.P", procRec1)]

/-- One-procedure modified grouping with a changed language field. -/
def procGroupMod : List (String × Record) := [("S.P", procRec2)]

/-! ### Claim theorems -/

/-- C1: `_table_definitions_differ` classifies a table as changed
unconditionally whenever the two column lists have different lengths;
with equal lengths it is changed exactly when some index-aligned column
pair differs on one of the column compare fields; in particular a table
with N columns in baseline and the same N columns plus one extra in
modified is always classified changed. -/
theorem c1_table_positional_compare (b m : List Record) :
    (b.length ≠ m.length → table_definitions_differ b m = true) ∧
    (b.length = m.length →
      (table_definitions_differ b m = true ↔
        ∃ i, i < b.length ∧ ∃ kf ∈ table_compare_keys,
          (b.getD i defaultRecord) kf ≠ (m.getD i defaultRecord) kf)) ∧
    (∀ extra : Record, table_definitions_differ b (b ++ [extra]) = true) := by
  refine ⟨fun h => ?_, fun h => ?_, fun extra => ?_⟩
  · rw [table_definitions_differ, if_pos h]
  · rw [table_definitions_differ, if_neg (by omega), zip_any_iff]
    constructor
    · rintro ⟨i, h1, _, h3⟩
      exact ⟨i, h1, (column_differences_nonempty_iff _ _).mp h3⟩
    · rintro ⟨i, h1, hk⟩
      exact ⟨i, h1, by omega, (column_differences_nonempty_iff _ _).mpr hk⟩
  · have hl : (b ++ [extra]).length = b.length + 1 := by simp
    rw [table_definitions_differ, if_pos (by omega)]

/-- Witness for C1 at concrete column lists. -/
theorem c1_table_positional_compare_w :
    table_definitions_differ [tcolB] [] = true ∧
    table_definitions_differ [tcolB] ([tcolB] ++ [tcolA]) = true :=
  ⟨(c1_table_positional_compare [tcolB] []).1 (by decide),
   (c1_table_positional_compare [tcolB] [tcolA]).2.2 tcolA⟩

/-- C2: the added keys are exactly the keys present in the modified
grouping and absent from the baseline grouping, and the removed keys
exactly the converse — for the scalar groupings of `compare_procedures`
and the composite groupings of `compare_tables`. -/
theorem c2_added_removed_sets (pb pm : List (String × Record))
    (tb tm : List (String × List Record)) (k : String) :
    (k ∈ new_keys pb pm ↔ k ∈ dictKeys pm ∧ k ∉ dictKeys pb) ∧
    (k ∈ dropped_keys pb pm ↔ k ∈ dictKeys pb ∧ k ∉ dictKeys pm) ∧
    (k ∈ new_keys tb tm ↔ k ∈ dictKeys tm ∧ k ∉ dictKeys tb) ∧
    (k ∈ dropped_keys tb tm ↔ k ∈ dictKeys tb ∧ k ∉ dictKeys tm) :=
  ⟨mem_new_keys pb pm k, mem_dropped_keys pb pm k,
   mem_new_keys tb tm k, mem_dropped_keys tb tm k⟩

/-- C3: for each scalar kind (procedures, triggers, functions), a key
present in both groupings is classified modified exactly when the
`differences` list over that kind's compare fields is non-empty. -/
theorem c3_scalar_changed_iff_delta (b m : List (String × Record)) (k : String)
    (hb : k ∈ dictKeys b) (hm : k ∈ dictKeys m) :
    (k ∈ find_modified_procs b m ↔
      proc_differences (recGet b k) (recGet m k) ≠ []) ∧
    (k ∈ find_modified_triggers b m ↔
      trigger_differences (recGet b k) (recGet m k) ≠ []) ∧
    (k ∈ find_modified_functions b m ↔
      function_differences (recGet b k) (recGet m k) ≠ []) := by
  refine ⟨?_, ?_, ?_⟩
  · rw [mem_find_modified_procs]
    simp [hb, hm, proc_definitions_differ, List.isEmpty_iff]
  · rw [mem_find_modified_triggers]
    simp [hb, hm, trigger_definitions_differ, List.isEmpty_iff]
  · rw [mem_find_modified_functions]
    simp [hb, hm, function_definitions_differ, List.isEmpty_iff]

/-- Witness for C3 at a concrete common key. -/
theorem c3_scalar_changed_iff_delta_w :
    ("S.P" ∈ find_modified_procs procGroupBase procGroupMod ↔
      proc_differences (recGet procGroupBase "S.P") (recGet procGroupMod "S.P") ≠ []) ∧
    ("S.P" ∈ find_modified_triggers procGroupBase procGroupMod ↔
      trigger_differences (recGet procGroupBase "S.P") (recGet procGroupMod "S.P") ≠ []) ∧
    ("S.P" ∈ find_modified_functions procGroupBase procGroupMod ↔
      function_differences (recGet procGroupBase "S.P") (recGet procGroupMod "S.P") ≠ []) :=
  c3_scalar_changed_iff_delta procGroupBase procGroupMod "S.P" (by decide) (by decide)

/-- C4 counterexample: grouping two procedure records with the same
qualified key "S.P" does not fail with any error — it produces a
one-entry grouping holding the second record.  No `DuplicateKeyError`
exists anywhere in the source. -/
theorem c4_duplicate_key_counterexample :
    dictKeys (group_by_proc [procRec1, procRec2]) = ["S.P"] ∧
    dictFind (group_by_proc [procRec1, procRec2]) "S.P" = some procRec2 :=
  ⟨by decide, rfl⟩

/-- C4 amended: a second record for an already-seen qualified key raises
nothing; it silently replaces the first record in the grouping. -/
theorem c4_duplicate_key_amended (p q : Record) (h : procKey p = procKey q) :
    group_by_proc [p, q] = [(procKey q, q)] := by
  simp [group_by_proc, dictInsert, h]

/-- Witness for the amended C4 at concrete records. -/
theorem c4_duplicate_key_amended_w :
    group_by_proc [procRec1, procRec2] = [(procKey procRec2, procRec2)] :=
  c4_duplicate_key_amended procRec1 procRec2 (by decide)

/-- C5 counterexample: with four object kinds where the first comparison
raises, `main` produces a report for none of them — the error propagates
out of the `try` block (the `finally` clause only closes connections)
instead of being logged and skipped per kind. -/
theorem c5_error_abort_counterexample :
    run_comparisons
        [Except.error "boom", Except.ok (), Except.ok (), Except.ok ()] =
      ([false, false, false, false], some "boom") := rfl

/-- C5 amended: a fatal error while comparing one object kind aborts the
whole run: the failing kind and every kind after it produce no report,
and the error propagates out of `main`. -/
theorem c5_error_abort_amended (n : Nat) (e : String)
    (post : List (Except String Unit)) :
    run_comparisons (List.replicate n (Except.ok ()) ++ Except.error e :: post) =
      (List.replicate n true ++ false :: post.map (fun _ => false), some e) := by
  induction n with
  | zero => simp [run_comparisons]
  | succ j ih =>
    rw [List.replicate_succ, List.cons_append]
    simp [run_comparisons, ih, List.replicate_succ]

/-- C6 counterexample: a modified table whose columns are "B" then "A"
(both with a changed type) has its changed-columns detail emitted in the
order ["B", "A"] — the unsorted set/dict iteration of
`_write_table_differences_detail` — which is not lexicographic. -/
theorem c6_unsorted_columns_counterexample :
    (detail_modified_cols tblBase tblMod).map Value.keyStr = ["B", "A"] ∧
    ¬ List.Sorted (· ≤ ·) ((detail_modified_cols tblBase tblMod).map Value.keyStr) := by
  have h1 : (detail_modified_cols tblBase tblMod).map Value.keyStr = ["B", "A"] := by
    decide
  refine ⟨h1, ?_⟩
  rw [h1]
  intro hs
  have hBA : ("B" : String) ≤ "A" := (List.sorted_cons.mp hs).1 "A" (by simp)
  rw [String.le_iff_toList_le] at hBA
  exact absurd hBA (by decide)

/-- C6 amended: the key-level added/removed/modified sets are rendered
through `sorted(...)` and therefore iterate in lexicographic order (shown
here for tables and procedures), but the column-level delta of a modified
table is iterated in Python set order with no sorting, so it is not
lexicographic (see the counterexample). -/
theorem c6_render_order_amended (tb tm : List (String × List Record))
    (pb pm : List (String × Record)) :
    List.Sorted (· ≤ ·) (rendered_new_tables tb tm) ∧
    List.Sorted (· ≤ ·) (rendered_dropped_tables tb tm) ∧
    List.Sorted (· ≤ ·) (rendered_modified_tables tb tm) ∧
    List.Sorted (· ≤ ·) (rendered_new_procs pb pm) ∧
    List.Sorted (· ≤ ·) (rendered_dropped_procs pb pm) ∧
    List.Sorted (· ≤ ·) (rendered_modified_procs pb pm) ∧
    (∀ k, k ∈ rendered_new_tables tb tm ↔ k ∈ new_keys tb tm) ∧
    (∀ k, k ∈ rendered_dropped_tables tb tm ↔ k ∈ dropped_keys tb tm) ∧
    (∀ k, k ∈ rendered_modified_tables tb tm ↔ k ∈ find_modified_tables tb tm) ∧
    (∀ k, k ∈ rendered_new_procs pb pm ↔ k ∈ new_keys pb pm) ∧
    (∀ k, k ∈ rendered_dropped_procs pb pm ↔ k ∈ dropped_keys pb pm) ∧
    (∀ k, k ∈ rendered_modified_procs pb pm ↔ k ∈ find_modified_procs pb pm) := by
  refine ⟨?_, ?_, ?_, ?_, ?_, ?_, ?_, ?_, ?_, ?_, ?_, ?_⟩ <;>
    first
      | exact List.sorted_insertionSort _ _
      | exact fun k => (List.perm_insertionSort _ _).mem_iff

/-- C7: the added, removed and modified key sets are pairwise disjoint,
and a key common to both groupings is classified changed or (implicitly)
unchanged, never both (`compare_procedures`). -/
theorem c7_partition_invariant (b m : List (String × Record)) (k : String)
    (hb : k ∈ dictKeys b) (hm : k ∈ dictKeys m) :
    (∀ j : String,
      ¬(j ∈ new_keys b m ∧ j ∈ dropped_keys b m) ∧
      ¬(j ∈ new_keys b m ∧ j ∈ find_modified_procs b m) ∧
      ¬(j ∈ dropped_keys b m ∧ j ∈ find_modified_procs b m)) ∧
    ((k ∈ find_modified_procs b m ∨
        proc_definitions_differ (recGet b k) (recGet m k) = false) ∧
      ¬(k ∈ find_modified_procs b m ∧
        proc_definitions_differ (recGet b k) (recGet m k) = false)) := by
  constructor
  · intro j
    refine ⟨?_, ?_, ?_⟩
    · rintro ⟨h1, h2⟩
      exact ((mem_new_keys b m j).mp h1).2 ((mem_dropped_keys b m j).mp h2).1
    · rintro ⟨h1, h2⟩
      exact ((mem_new_keys b m j).mp h1).2 ((mem_find_modified_procs b m j).mp h2).1
    · rintro ⟨h1, h2⟩
      exact ((mem_dropped_keys b m j).mp h1).2 ((mem_find_modified_procs b m j).mp h2).2.1
  · constructor
    · cases hd : proc_definitions_differ (recGet b k) (recGet m k) with
      | false => exact Or.inr rfl
      | true => exact Or.inl ((mem_find_modified_procs b m k).mpr ⟨hb, hm, hd⟩)
    · rintro ⟨h1, h2⟩
      have ht := ((mem_find_modified_procs b m k).mp h1).2.2
      simp [ht] at h2

/-- Witness for C7 at a concrete common key. -/
theorem c7_partition_invariant_w :
    (∀ j : String,
      ¬(j ∈ new_keys procGroupBase procGroupMod ∧
        j ∈ dropped_keys procGroupBase procGroupMod) ∧
      ¬(j ∈ new_keys procGroupBase procGroupMod ∧
        j ∈ find_modified_procs procGroupBase procGroupMod) ∧
      ¬(j ∈ dropped_keys procGroupBase procGroupMod ∧
        j ∈ find_modified_procs procGroupBase procGroupMod)) ∧
    (("S.P" ∈ find_modified_procs procGroupBase procGroupMod ∨
        proc_definitions_differ (recGet procGroupBase "S.P")
          (recGet procGroupMod "S.P") = false) ∧
      ¬("S.P" ∈ find_modified_procs procGroupBase procGroupMod ∧
        proc_definitions_differ (recGet procGroupBase "S.P")
          (recGet procGroupMod "S.P") = false)) :=
  c7_partition_invariant procGroupBase procGroupMod "S.P" (by decide) (by decide)

lemma find_modified_procs_swap (A B : List (String × Record)) (k : String) :
    k ∈ find_modified_procs A B ↔ k ∈ find_modified_procs B A := by
  rw [mem_find_modified_procs, mem_find_modified_procs,
    proc_differ_true_iff, proc_differ_true_iff]
  constructor <;> rintro ⟨h1, h2, kf, hkf, hne⟩ <;> exact ⟨h2, h1, kf, hkf, hne.symm⟩

lemma table_differ_true_swap (b m : List Record) :
    table_definitions_differ b m = true ↔ table_definitions_differ m b = true := by
  by_cases h : b.length = m.length
  · rw [table_definitions_differ, table_definitions_differ,
      if_neg (by omega), if_neg (by omega), zip_any_iff, zip_any_iff]
    constructor
    · rintro ⟨i, h1, h2, h3⟩
      rw [column_differences_nonempty_iff] at h3
      rcases h3 with ⟨kf, hkf, hne⟩
      exact ⟨i, h2, h1, (column_differences_nonempty_iff _ _).mpr ⟨kf, hkf, hne.symm⟩⟩
    · rintro ⟨i, h1, h2, h3⟩
      rw [column_differences_nonempty_iff] at h3
      rcases h3 with ⟨kf, hkf, hne⟩
      exact ⟨i, h2, h1, (column_differences_nonempty_iff _ _).mpr ⟨kf, hkf, hne.symm⟩⟩
  · rw [table_definitions_differ, table_definitions_differ,
      if_pos h, if_pos (Ne.symm h)]

lemma find_modified_tables_swap (A B : List (String × List Record)) (k : String) :
    k ∈ find_modified_tables A B ↔ k ∈ find_modified_tables B A := by
  rw [mem_find_modified_tables, mem_find_modified_tables]
  constructor <;> rintro ⟨h1, h2, h3⟩ <;>
    exact ⟨h2, h1, (table_differ_true_swap _ _).mp h3⟩

/-- C8: swapping baseline and modified swaps the added and removed key
sets and keeps the set of modified keys, for the scalar (procedures) and
composite (tables) comparisons. -/
theorem c8_swap_symmetry (A B : List (String × Record))
    (tA tB : List (String × List Record)) :
    new_keys A B = dropped_keys B A ∧
    dropped_keys A B = new_keys B A ∧
    (∀ k, k ∈ find_modified_procs A B ↔ k ∈ find_modified_procs B A) ∧
    new_keys tA tB = dropped_keys tB tA ∧
    dropped_keys tA tB = new_keys tB tA ∧
    (∀ k, k ∈ find_modified_tables tA tB ↔ k ∈ find_modified_tables tB tA) :=
  ⟨rfl, rfl, fun k => find_modified_procs_swap A B k,
   rfl, rfl, fun k => find_modified_tables_swap tA tB k⟩

/-- C9: the scalar grouping stage never fails on duplicate qualified
keys: it is a total function and each key maps to the last record with
that key in input order (procedures, triggers, functions). -/
theorem c9_last_record_wins :
    (∀ (procs : List Record) (k : String),
      dictFind (group_by_proc procs) k =
        (procs.filter (fun r => decide (procKey r = k))).getLast?) ∧
    (∀ (triggers : List Record) (k : String),
      dictFind (group_by_trigger triggers) k =
        (triggers.filter (fun r => decide (trigKey r = k))).getLast?) ∧
    (∀ (funcs : List Record) (k : String),
      dictFind (group_by_function funcs) k =
        (funcs.filter (fun r => decide (funcKey r = k))).getLast?) := by
  refine ⟨fun procs k => ?_, fun triggers k => ?_, fun funcs k => ?_⟩
  · rw [group_by_proc, dictFind_groupFold]
    cases (procs.filter fun r => decide (procKey r = k)).getLast? <;>
      simp [Option.or, dictFind]
  · rw [group_by_trigger, dictFind_groupFold]
    cases (triggers.filter fun r => decide (trigKey r = k)).getLast? <;>
      simp [Option.or, dictFind]
  · rw [group_by_function, dictFind_groupFold]
    cases (funcs.filter fun r => decide (funcKey r = k)).getLast? <;>
      simp [Option.or, dictFind]

/-- C10: two equal-length column lists holding the same named columns
with identical compare-field values but in different positional order:
the positional check flags the table as changed while the name-keyed
detail delta is completely empty. -/
theorem c10_reordered_columns (b m : List Record)
    (hlen : b.length = m.length)
    (hmb : ∀ c ∈ dictKeys (colsDict m), c ∈ dictKeys (colsDict b))
    (hbm : ∀ c ∈ dictKeys (colsDict b), c ∈ dictKeys (colsDict m))
    (hsame : ∀ c ∈ dictKeys (colsDict b),
      col_changes (colGet b c) (colGet m c) = [])
    (hdiff : ∃ i ∈ List.range b.length,
      (b.getD i defaultRecord) "colname" ≠ (m.getD i defaultRecord) "colname") :
    table_definitions_differ b m = true ∧
    detail_added_cols b m = [] ∧
    detail_removed_cols b m = [] ∧
    detail_modified_cols b m = [] := by
  refine ⟨?_, ?_, ?_, ?_⟩
  · rw [table_definitions_differ, if_neg (by omega), zip_any_iff]
    rcases hdiff with ⟨i, hi, hne⟩
    rw [List.mem_range] at hi
    exact ⟨i, hi, by omega, (column_differences_nonempty_iff _ _).mpr
      ⟨"colname", by decide, hne⟩⟩
  · rw [detail_added_cols, List.filter_eq_nil_iff]
    intro c hc
    simp [hmb c hc]
  · rw [detail_removed_cols, List.filter_eq_nil_iff]
    intro c hc
    simp [hbm c hc]
  · rw [detail_modified_cols, List.filter_eq_nil_iff]
    intro c hc
    have hcb : c ∈ dictKeys (colsDict b) :=
      (List.mem_filter.mp hc).1
    simp [hsame c hcb]

/-- Witness for C10: the same two columns in swapped order. -/
theorem c10_reordered_columns_w :
    table_definitions_differ tblBase tblPerm = true ∧
    detail_added_cols tblBase tblPerm = [] ∧
    detail_removed_cols tblBase tblPerm = [] ∧
    detail_modified_cols tblBase tblPerm = [] :=
  c10_reordered_columns tblBase tblPerm (by decide) (by decide) (by decide)
    (by decide) (by decide)

end Db2Compare
